import Mathlib

/-!
Shallow embedding of the union-station predictive scheduler: the private
state and handlers of the `UnionStation` class, the `arrayMin` utility, and
the worker message protocol.  JavaScript numbers are modelled as `ℤ` for
counters (they may go negative, as in the source) and `ℚ` for durations;
the aliasing of the mutable `WorkerStatus` objects is modelled by pairing
each status with its pool index wherever the source passes the objects
around.  The deferred (`requestIdleCallback`-debounced) bodies of
`#updateEstimates` and `#reflow` are separate actions of the single-threaded
control flow, matching when the host actually runs them.
-/

/-- Per-worker mutable status (`WorkerStatus` in the source): `estimate` is
the estimated total time until the worker is idle, `running` the number of
jobs currently admitted to it. -/
structure WorkerStatus where
  estimate : ℚ
  running : ℤ
  deriving DecidableEq, Repr

/-- A `call` request message (`UnionWorkerCallRequest` in the source). -/
structure CallRequest where
  id : ℕ
  name : String
  data : ℕ
  workgroupLength : ℕ
  deriving DecidableEq, Repr

/-- Messages the station posts to a worker (`UnionWorkerRequest`). -/
inductive WorkerMessage where
  | setupAck (localQueueSize : ℤ)
  | call (c : CallRequest)
  | callPriority (c : CallRequest)
  deriving DecidableEq, Repr

/-- The dispatcher state: the private fields of the `UnionStation` class.
The `#jobs` map of `Completer`s is modelled by the list of pending job ids
plus an append-only log of resolutions `(id, result)`; all `postMessage`
traffic is logged in `sent` as `(target worker index, message)` pairs. -/
structure Station where
  localQueueSize : ℤ
  fallbackTime : ℚ
  workerStatus : List WorkerStatus
  jobId : ℕ
  pendingIds : List ℕ
  resolved : List (ℕ × ℕ)
  readyCount : ℕ
  isReady : Bool
  estimates : List (String × ℕ × ℚ)
  pendingEstimates : List (String × ℚ)
  globalQueue : List CallRequest
  sent : List (ℕ × WorkerMessage)
  deriving DecidableEq, Repr

/-- The loop of `arrayMin` from `util/arrayMin.ts`: scan positions
`i, i+1, ...` keeping the least value under strict `<` and its index. -/
def arrayMinGo {T : Type} (f : T → ℚ) : List T → ℕ → ℚ → ℕ → ℚ × ℕ
  | [], _, m, minIdx => (m, minIdx)
  | x :: xs, i, m, minIdx =>
    if f x < m then arrayMinGo f xs (i + 1) (f x) i
    else arrayMinGo f xs (i + 1) m minIdx

/-- `arrayMin(array, fn)`: the least element of the array by `fn` together
with its index, `none` on an empty array; ties keep the earliest index. -/
def arrayMin {T : Type} (array : List T) (f : T → ℚ) : Option (T × ℕ) :=
  match array with
  | [] => none
  | a0 :: rest =>
    let r := arrayMinGo f rest 1 (f a0) 0
    some (array.getD r.2 a0, r.2)

/-- `Map.get` on the estimate table, as an insertion-ordered association
list from job-type name to `(sample count, mean)`. -/
def estLookup (l : List (String × ℕ × ℚ)) (k : String) : Option (ℕ × ℚ) :=
  match l with
  | [] => none
  | (k1, v) :: rest => if k1 = k then some v else estLookup rest k

/-- `Map.set` on the estimate table: replace in place when the key is
present, append otherwise. -/
def estSet (l : List (String × ℕ × ℚ)) (k : String) (v : ℕ × ℚ) :
    List (String × ℕ × ℚ) :=
  match l with
  | [] => [(k, v)]
  | (k1, v1) :: rest => if k1 = k then (k, v) :: rest else (k1, v1) :: estSet rest k v

/-- `#getEstimate(type)`: the recorded mean for the job-type, or
`fallbackTime` when no entry exists. -/
def Station.getEstimate (s : Station) (t : String) : ℚ :=
  match estLookup s.estimates t with
  | none => s.fallbackTime
  | some e => e.2

/-- One iteration of the `#updateEstimates` loop body for a buffered
`{name, dt}` sample: create a fresh entry with count 1, or bump the count
and recompute the incremental mean. -/
def recordSample (est : List (String × ℕ × ℚ)) (name : String) (dt : ℚ) :
    List (String × ℕ × ℚ) :=
  match estLookup est name with
  | none => estSet est name (1, dt)
  | some e =>
    let n := e.1 + 1
    estSet est name (n, (e.2 * ((n : ℚ) - 1) + dt) / (n : ℚ))

/-- The `#updateEstimates` action: fold every buffered sample into the
estimate table.  Faithful to the source, the `pendingEstimates` buffer is
not cleared afterwards. -/
def updateEstimates (s : Station) : Station :=
  { s with estimates :=
      s.pendingEstimates.foldl (fun est p => recordSample est p.1 p.2) s.estimates }

/-- The `"setup"` branch of `#onMessage`: post the ack to the reporting
worker, bump the ready count, and resolve the readiness gate when the count
reaches the pool size (resolving an already-resolved `Completer` keeps it
completed, hence the sticky disjunction). -/
def onSetup (s : Station) (workerIdx : ℕ) : Station :=
  let rc := s.readyCount + 1
  { s with
    sent := s.sent ++ [(workerIdx, WorkerMessage.setupAck s.localQueueSize)],
    readyCount := rc,
    isReady := s.isReady || decide (rc = s.workerStatus.length) }

/-- First statement group of the `"done"` branch of `#onMessage`: look the
completer up by id; when present, delete it and resolve it with the result;
otherwise do nothing. -/
def resolveDone (s : Station) (id : ℕ) (result : ℕ) : Station :=
  if id ∈ s.pendingIds then
    { s with pendingIds := s.pendingIds.erase id,
             resolved := s.resolved ++ [(id, result)] }
  else s

/-- Second statement group of the `"done"` branch: unconditionally decrement
the `running` of the reporting worker, subtract the current estimate of the job-type
from its `estimate`, and buffer the observed duration. -/
def statusDone (s : Station) (workerIdx : ℕ) (name : String) (dt : ℚ) : Station :=
  match s.workerStatus[workerIdx]? with
  | none => s
  | some st =>
    { s with
      workerStatus := s.workerStatus.set workerIdx
        { estimate := st.estimate - s.getEstimate name,
          running := st.running - 1 },
      pendingEstimates := s.pendingEstimates ++ [(name, dt)] }

/-- The `"done"` branch of `#onMessage`, in source order: the completer
resolution followed by the worker-status update.  (The trailing reflow check
only arms the debounced `#reflow`; the pass itself is the `reflow` action.) -/
def onDone (s : Station) (workerIdx : ℕ) (id : ℕ) (name : String)
    (result : ℕ) (dt : ℚ) : Station :=
  statusDone (resolveDone s id result) workerIdx name dt

/-- The `eligibleWorkers` local of `#schedule`: every worker for a priority
job, otherwise those whose `running` is strictly below `localQueueSize`.
Statuses are paired with their pool index to model object identity. -/
def eligibleWorkers (s : Station) (priority : Bool) : List (ℕ × WorkerStatus) :=
  if priority then s.workerStatus.enum
  else s.workerStatus.enum.filter fun p => decide (p.2.running < s.localQueueSize)

/-- `#schedule(call, priority)`: decline when no worker is eligible;
otherwise take `arrayMin` of the eligible array by `estimate`, update the
chosen status object (pool slot `ci.1.1`), and post the message to
`#workers[workerIdx]` where `workerIdx = ci.2` is the index given by `arrayMin`
*within the eligible array*, exactly as the source does. -/
def schedule (s : Station) (c : CallRequest) (priority : Bool) : Option Station :=
  match arrayMin (eligibleWorkers s priority) (fun q => q.2.estimate) with
  | none => none
  | some ci =>
    some { s with
      workerStatus := s.workerStatus.set ci.1.1
        { estimate := ci.1.2.estimate + s.getEstimate c.name,
          running := ci.1.2.running + 1 },
      sent := s.sent ++ [(ci.2,
        if priority then WorkerMessage.callPriority c else WorkerMessage.call c)] }

/-- The loop of the `#reflow` action: walk the global queue from the head,
scheduling each job with non-priority semantics until the first failure;
return the resulting state and how many jobs were admitted. -/
def reflowGo : Station → List CallRequest → Station × ℕ
  | s, [] => (s, 0)
  | s, job :: rest =>
    match schedule s job false with
    | none => (s, 0)
    | some s1 =>
      let r := reflowGo s1 rest
      (r.1, r.2 + 1)

/-- The `#reflow` action: admit a prefix of the global queue, then splice
the admitted prefix off its front. -/
def reflow (s : Station) : Station :=
  if s.globalQueue.isEmpty then s
  else
    let r := reflowGo s s.globalQueue
    { r.1 with globalQueue := r.1.globalQueue.drop r.2 }

/-- `call(name, data, workgroupLength, {priority})`: while the readiness
gate is closed the caller suspends with no effect on the state (its
resumption is a later `call` once the gate is open); otherwise allocate the
next job id, record the completer, and either schedule the job or append it
to the global queue. -/
def Station.call (s : Station) (name : String) (data : ℕ)
    (workgroupLength : ℕ) (priority : Bool) : Station :=
  if s.isReady then
    let c : CallRequest :=
      { id := s.jobId, name := name, data := data, workgroupLength := workgroupLength }
    let s1 := { s with jobId := s.jobId + 1, pendingIds := s.pendingIds ++ [s.jobId] }
    match schedule s1 c priority with
    | some s2 => s2
    | none => { s1 with globalQueue := s1.globalQueue ++ [c] }
  else s

/-- The state the constructor builds once the worker count has resolved:
all-zero statuses, closed gate, and the estimate table pre-seeded from the
time snapshot with sample count 1 per entry. -/
def initStation (workerCount : ℕ) (localQueueSize : ℤ) (fallbackTime : ℚ)
    (timeSnapshot : List (String × ℚ)) : Station :=
  { localQueueSize := localQueueSize,
    fallbackTime := fallbackTime,
    workerStatus := List.replicate workerCount { estimate := 0, running := 0 },
    jobId := 0, pendingIds := [], resolved := [],
    readyCount := 0, isReady := false,
    estimates := timeSnapshot.map fun p => (p.1, (1, p.2)),
    pendingEstimates := [], globalQueue := [], sent := [] }

/-- The `UnionStation` constructor: `workerCount = min(cpuCount - 1,
maxWorkers)`; `new Array(workerCount)` throws a `RangeError` for a negative
length, which is the only way construction can fail — the source has no
explicit zero-pool guard. -/
def mkStation (cpuCount : ℤ) (localQueueSize : ℤ) (maxWorkers : ℤ)
    (timeSnapshot : List (String × ℚ)) (fallbackTime : ℚ) : Except String Station :=
  let workerCount := min (cpuCount - 1) maxWorkers
  if workerCount < 0 then Except.error "Invalid array length"
  else Except.ok (initStation workerCount.toNat localQueueSize fallbackTime timeSnapshot)

/-- Inbound events and deferred actions that mutate the station state. -/
inductive Event where
  | setup (workerIdx : ℕ)
  | done (workerIdx : ℕ) (id : ℕ) (name : String) (result : ℕ) (dt : ℚ)
  | callReq (name : String) (data : ℕ) (workgroupLength : ℕ) (priority : Bool)
  | reflowRun
  | estimatesRun
  deriving DecidableEq, Repr

/-- One step of the single-threaded control flow. -/
def step (s : Station) : Event → Station
  | Event.setup i => onSetup s i
  | Event.done i id name r dt => onDone s i id name r dt
  | Event.callReq n d w p => Station.call s n d w p
  | Event.reflowRun => reflow s
  | Event.estimatesRun => updateEstimates s

/-- Process a list of events in order. -/
def runEvents (s : Station) (evs : List Event) : Station := evs.foldl step s

/-- Admit each job of a list in order with non-priority semantics, failing
when any admission fails; states what a reflow pass does to the admitted
prefix of the global queue. -/
def scheduleSeq (s : Station) : List CallRequest → Option Station
  | [] => some s
  | c :: rest =>
    match schedule s c false with
    | none => none
    | some s1 => scheduleSeq s1 rest

/-- Two workers at local-queue capacity 1: worker 0 is full, worker 1 idle
with backlog 5, so worker 1 is the only eligible worker. -/
def stationA : Station :=
  { initStation 2 1 10 [] with
    isReady := true,
    workerStatus := [{ estimate := 0, running := 1 }, { estimate := 5, running := 0 }] }

/-- A non-priority job submitted against `stationA`. -/
def jobA : CallRequest := { id := 0, name := "a", data := 0, workgroupLength := 0 }

/-- One worker with backlog 10 and one running job whose pending id is 0. -/
def stationB : Station :=
  { initStation 1 8 10 [] with
    isReady := true,
    workerStatus := [{ estimate := 10, running := 1 }],
    pendingIds := [0] }

/-- A run in which two completions of job-type `"a"` (durations 2 and 4)
are each followed by a run of the estimate-recomputation action. -/
def stationC : Station :=
  runEvents (initStation 1 8 10 [])
    [Event.setup 0,
     Event.callReq "a" 0 0 false, Event.done 0 0 "a" 0 2, Event.estimatesRun,
     Event.callReq "a" 0 0 false, Event.done 0 1 "a" 0 4, Event.estimatesRun]

/-- A run on a single worker of capacity 1: a non-priority admission, a
priority admission on top of it, then a failing non-priority call. -/
def stationD : Station :=
  runEvents (initStation 1 1 10 [])
    [Event.setup 0,
     Event.callReq "a" 0 0 false,
     Event.callReq "a" 0 0 true,
     Event.callReq "a" 0 0 false]

/-- A run in which two jobs of type `"a"` are admitted at fallback estimate
10 each, and the estimate table changes (to mean 4) between their two
completions. -/
def stationE : Station :=
  runEvents (initStation 1 8 10 [])
    [Event.setup 0,
     Event.callReq "a" 0 0 false, Event.callReq "a" 1 0 false,
     Event.done 0 0 "a" 0 4, Event.estimatesRun,
     Event.done 0 1 "a" 0 9]

/-- A station whose readiness gate is still closed. -/
def stationNR : Station := initStation 1 8 10 []

/-- A station whose readiness gate is open. -/
def stationR : Station := { initStation 1 8 10 [] with isReady := true }

/-- `arrayMin` returns `none` exactly on the empty array. -/
theorem arrayMin_eq_none {T : Type} (l : List T) (f : T → ℚ) :
    arrayMin l f = none ↔ l = [] := by
  cases l <;> simp [arrayMin]

/-- `arrayMin` returns some result on a non-empty array. -/
theorem arrayMin_of_ne_nil {T : Type} {l : List T} (f : T → ℚ) (h : l ≠ []) :
    ∃ y, arrayMin l f = some y := by
  cases l with
  | nil => exact absurd rfl h
  | cons a rest => exact ⟨_, rfl⟩

/-- The index tracked by the `arrayMin` loop is either the incoming
candidate or the position of one of the scanned elements. -/
theorem arrayMinGo_idx {T : Type} (f : T → ℚ) (xs : List T) (i : ℕ) (m : ℚ)
    (minIdx : ℕ) :
    (arrayMinGo f xs i m minIdx).2 = minIdx ∨
      (i ≤ (arrayMinGo f xs i m minIdx).2 ∧
        (arrayMinGo f xs i m minIdx).2 < i + xs.length) := by
  induction xs generalizing i m minIdx with
  | nil => exact Or.inl rfl
  | cons x xs ih =>
    simp only [arrayMinGo, List.length_cons]
    by_cases hx : f x < m
    · rw [if_pos hx]
      rcases ih (i + 1) (f x) i with h1 | h2
      · right; omega
      · right; omega
    · rw [if_neg hx]
      rcases ih (i + 1) m minIdx with h1 | h2
      · left; exact h1
      · right; omega

/-- A successful `arrayMin` returns an element of the array together with
its position inside that array. -/
theorem arrayMin_mem {T : Type} {l : List T} {f : T → ℚ} {ci : T × ℕ}
    (h : arrayMin l f = some ci) : l[ci.2]? = some ci.1 := by
  cases l with
  | nil => cases h
  | cons a0 rest =>
    have hidx := arrayMinGo_idx f rest 1 (f a0) 0
    unfold arrayMin at h
    dsimp only at h
    injection h with h1
    subst h1
    have hlt : (arrayMinGo f rest 1 (f a0) 0).2 < (a0 :: rest).length := by
      simp only [List.length_cons]
      rcases hidx with h1 | h2
      · omega
      · omega
    dsimp only
    rw [List.getElem?_eq_getElem hlt, List.getD_eq_getElem?_getD,
      List.getElem?_eq_getElem hlt]
    rfl

/-- `#schedule` only touches `workerStatus` and `sent`; every other field of
the station survives a successful admission unchanged. -/
theorem schedule_frame {s s1 : Station} {c : CallRequest} {p : Bool}
    (h : schedule s c p = some s1) :
    s1.globalQueue = s.globalQueue ∧ s1.isReady = s.isReady ∧
    s1.localQueueSize = s.localQueueSize ∧ s1.estimates = s.estimates ∧
    s1.pendingIds = s.pendingIds ∧ s1.jobId = s.jobId := by
  unfold schedule at h
  cases harr : arrayMin (eligibleWorkers s p) (fun q => q.2.estimate) with
  | none => rw [harr] at h; cases h
  | some ci =>
    rw [harr] at h
    injection h with h1
    subst h1
    exact ⟨rfl, rfl, rfl, rfl, rfl, rfl⟩

/-- For a non-priority job the eligible array is empty exactly when every
workers have `running` at the local-queue capacity or beyond. -/
theorem eligibleWorkers_false_eq_nil (s : Station) :
    eligibleWorkers s false = [] ↔
      ∀ st ∈ s.workerStatus, s.localQueueSize ≤ st.running := by
  show (s.workerStatus.enum.filter fun p => decide (p.2.running < s.localQueueSize))
      = [] ↔ _
  rw [List.filter_eq_nil_iff]
  constructor
  · intro h st hst
    rw [← List.enum_map_snd s.workerStatus] at hst
    obtain ⟨p, hp, hpe⟩ := List.mem_map.mp hst
    have h2 := h p hp
    rw [hpe] at h2
    simpa using h2
  · intro h p hp
    have h2 : p.2 ∈ s.workerStatus := by
      rw [← List.enum_map_snd s.workerStatus]
      exact List.mem_map_of_mem _ hp
    simpa using h p.2 h2

/-- `resolveDone` touches only `pendingIds` and `resolved`. -/
theorem resolveDone_frame (s : Station) (id r : ℕ) :
    (resolveDone s id r).workerStatus = s.workerStatus ∧
    (resolveDone s id r).estimates = s.estimates ∧
    (resolveDone s id r).pendingEstimates = s.pendingEstimates ∧
    (resolveDone s id r).isReady = s.isReady ∧
    (resolveDone s id r).globalQueue = s.globalQueue := by
  unfold resolveDone
  split <;> exact ⟨rfl, rfl, rfl, rfl, rfl⟩

/-- `resolveDone` does not change what `#getEstimate` returns. -/
theorem resolveDone_getEstimate (s : Station) (id r : ℕ) (nm : String) :
    (resolveDone s id r).getEstimate nm = s.getEstimate nm := by
  unfold resolveDone
  split <;> rfl

/-- `statusDone` at a valid worker index performs exactly the unconditional
status update of the `"done"` handler. -/
theorem statusDone_spec (s : Station) (i : ℕ) (name : String) (dt : ℚ)
    (st : WorkerStatus) (h : s.workerStatus[i]? = some st) :
    statusDone s i name dt =
      { s with
        workerStatus :=
          s.workerStatus.set i ⟨st.estimate - s.getEstimate name, st.running - 1⟩,
        pendingEstimates := s.pendingEstimates ++ [(name, dt)] } := by
  unfold statusDone
  rw [h]

/-- C10: the estimate-recomputation action never removes entries from the
pending-estimate buffer — after each run of `updateEstimates` the buffer is
exactly what it was before, so every sample ever appended is still present
and every subsequent run re-applies all of them. -/
theorem updateEstimates_preserves_pending (s : Station) :
    (updateEstimates s).pendingEstimates = s.pendingEstimates := rfl

/-- C1: at `stationA` (worker 0 full, worker 1 the sole eligible worker with
the minimal backlog) the bookkeeping is applied to pool slot 1, yet the
message is posted to worker 0 — `#schedule` indexes `#workers` with
the position of the minimum inside the *filtered* eligible array, so the worker
that receives the job is not the worker whose status was updated. -/
theorem schedule_message_target_mismatch :
    schedule stationA jobA false = some { stationA with
      workerStatus := [{ estimate := 0, running := 1 }, { estimate := 15, running := 1 }],
      sent := [(0, WorkerMessage.call jobA)] } := by decide!

/-- C2 (counterexample): a `Done` whose id (5) matches no pending entry is
not a no-op — the `running` of the reporting worker is still decremented and its
backlog still reduced by the current estimate, because only the future
resolution is guarded by the pending-map lookup. -/
theorem onDone_unmatched_mutates_status :
    (onDone stationB 0 5 "a" 7 3).workerStatus = [{ estimate := 0, running := 0 }] ∧
    (onDone stationB 0 5 "a" 7 3).pendingIds = [0] ∧
    (onDone stationB 0 5 "a" 7 3).resolved = [] ∧
    stationB.workerStatus = [{ estimate := 10, running := 1 }] := by
  exact ⟨by decide!, by decide!, by decide!, by decide!⟩

/-- C2 (amended): an inbound `Done` with an unmatched id resolves no future
and removes nothing from the pending map, but still decrements the worker
`running` count, subtracts the current estimate of the type from the backlog, and
buffers the sample; a matched completion does the same status update while
removing the id and resolving the future with the delivered result exactly
once. -/
theorem onDone_completion_spec (s : Station) (i id : ℕ) (name : String)
    (r : ℕ) (dt : ℚ) (st : WorkerStatus) (h : s.workerStatus[i]? = some st) :
    (id ∉ s.pendingIds →
      (onDone s i id name r dt).pendingIds = s.pendingIds ∧
      (onDone s i id name r dt).resolved = s.resolved ∧
      (onDone s i id name r dt).workerStatus = s.workerStatus.set i
        { estimate := st.estimate - s.getEstimate name, running := st.running - 1 } ∧
      (onDone s i id name r dt).pendingEstimates = s.pendingEstimates ++ [(name, dt)]) ∧
    (id ∈ s.pendingIds →
      (onDone s i id name r dt).pendingIds = s.pendingIds.erase id ∧
      (onDone s i id name r dt).resolved = s.resolved ++ [(id, r)] ∧
      (onDone s i id name r dt).workerStatus = s.workerStatus.set i
        { estimate := st.estimate - s.getEstimate name, running := st.running - 1 } ∧
      (onDone s i id name r dt).pendingEstimates = s.pendingEstimates ++ [(name, dt)]) := by
  have hws : (resolveDone s id r).workerStatus[i]? = some st := by
    rw [(resolveDone_frame s id r).1]; exact h
  have hsd := statusDone_spec (resolveDone s id r) i name dt st hws
  constructor
  · intro hid
    have hres : resolveDone s id r = s := by
      unfold resolveDone; rw [if_neg hid]
    unfold onDone
    rw [hsd, hres]
    exact ⟨rfl, rfl, rfl, rfl⟩
  · intro hid
    unfold onDone
    rw [hsd]
    refine ⟨?_, ?_, ?_, ?_⟩
    · show (resolveDone s id r).pendingIds = s.pendingIds.erase id
      unfold resolveDone; rw [if_pos hid]
    · show (resolveDone s id r).resolved = s.resolved ++ [(id, r)]
      unfold resolveDone; rw [if_pos hid]
    · show (resolveDone s id r).workerStatus.set i
          { estimate := st.estimate - (resolveDone s id r).getEstimate name,
            running := st.running - 1 } = _
      rw [(resolveDone_frame s id r).1, resolveDone_getEstimate]
    · show (resolveDone s id r).pendingEstimates ++ [(name, dt)] = _
      rw [(resolveDone_frame s id r).2.2.1]

/-- C2 (witness): the amended specification evaluated on `stationB` for its
one matching pending job. -/
theorem onDone_completion_spec_witness :
    (onDone stationB 0 0 "a" 7 3).pendingIds = stationB.pendingIds.erase 0 ∧
    (onDone stationB 0 0 "a" 7 3).resolved = stationB.resolved ++ [(0, 7)] := by
  have h := onDone_completion_spec stationB 0 0 "a" 7 3
    { estimate := 10, running := 1 } rfl
  exact ⟨(h.2 (by decide)).1, (h.2 (by decide)).2.1⟩

/-- C3: with no construction-time seed, samples 2 and 4 of job-type `"a"`
split across two runs of the recomputation action leave mean `8/3`, not the
arithmetic mean `3` — the second run re-applies the never-cleared first
sample. -/
theorem updateEstimates_reapplies_samples :
    stationC.estimates = [("a", (3, 8/3))] ∧ ((8 : ℚ)/3 ≠ (2 + 4)/2) := by
  exact ⟨by decide!, by norm_num⟩

/-- C6: a priority call with a non-empty pool is always admitted — every
worker is eligible regardless of `running` — and the very pool slot `i`
whose `running` and backlog bookkeeping are updated also receives the
`call_priority`-tagged message (front-of-local-queue insertion): with
priority the eligible array is the unfiltered pool, so the index given by
`arrayMin` inside it coincides with the pool index of the chosen worker. -/
theorem schedule_priority_always_admits (s : Station) (c : CallRequest)
    (h : s.workerStatus ≠ []) :
    ∃ i st, s.workerStatus[i]? = some st ∧
      schedule s c true = some { s with
        workerStatus := s.workerStatus.set i
          ⟨st.estimate + s.getEstimate c.name, st.running + 1⟩,
        sent := s.sent ++ [(i, WorkerMessage.callPriority c)] } := by
  have he : eligibleWorkers s true ≠ [] := by
    show s.workerStatus.enum ≠ []
    simpa [List.enum_eq_nil] using h
  obtain ⟨ci, hmin⟩ := arrayMin_of_ne_nil (fun q => q.2.estimate) he
  have henum : (s.workerStatus.enum)[ci.2]? = some ci.1 := arrayMin_mem hmin
  rw [List.getElem?_enum] at henum
  cases hst : s.workerStatus[ci.2]? with
  | none =>
    rw [hst] at henum
    simp at henum
  | some st =>
    rw [hst, Option.map_some'] at henum
    injection henum with hpair
    refine ⟨ci.2, st, hst, ?_⟩
    have hsch : schedule s c true = some { s with
        workerStatus := s.workerStatus.set ci.1.1
          ⟨ci.1.2.estimate + s.getEstimate c.name, ci.1.2.running + 1⟩,
        sent := s.sent ++ [(ci.2, WorkerMessage.callPriority c)] } := by
      unfold schedule
      rw [hmin]
      rfl
    rw [hsch, ← hpair]

/-- C6 (witness): a priority call on the ready one-worker station — slot 0
is both updated and the recipient of the tagged message. -/
theorem schedule_priority_always_admits_witness :
    ∃ i st, stationR.workerStatus[i]? = some st ∧
      schedule stationR jobA true = some { stationR with
        workerStatus := stationR.workerStatus.set i
          ⟨st.estimate + stationR.getEstimate jobA.name, st.running + 1⟩,
        sent := stationR.sent ++ [(i, WorkerMessage.callPriority jobA)] } :=
  schedule_priority_always_admits stationR jobA (by decide)

/-- C5 (counterexample): on `stationD` (capacity 1) a non-priority and then
a priority admission leave the single worker with `running = 2`; the third,
non-priority call fails admission and lands in the Global Queue even though
`running` does not *equal* the capacity — refuting the claimed "fails iff
every runningCount equals localQueueSize". -/
theorem call_reject_running_exceeds_capacity :
    stationD.globalQueue = [{ id := 2, name := "a", data := 0, workgroupLength := 0 }] ∧
    stationD.workerStatus = [{ estimate := 20, running := 2 }] ∧
    stationD.localQueueSize = 1 ∧ ((2 : ℤ) ≠ 1) := by
  exact ⟨by decide!, by decide!, by decide!, by decide⟩

/-- C5 (amended): a non-priority admission attempt fails iff for every worker
`running` is at least (not exactly equal to) the local-queue capacity —
priority admissions can push `running` beyond it; and when a ready `call`
finds all workers at or above capacity, the job is appended at the tail of
the Global Queue. -/
theorem nonpriority_reject_iff_full (s : Station) (c : CallRequest)
    (nm : String) (d w : ℕ) :
    (schedule s c false = none ↔
      ∀ st ∈ s.workerStatus, s.localQueueSize ≤ st.running) ∧
    (s.isReady = true → (∀ st ∈ s.workerStatus, s.localQueueSize ≤ st.running) →
      (Station.call s nm d w false).globalQueue =
        s.globalQueue ++ [{ id := s.jobId, name := nm, data := d, workgroupLength := w }]) := by
  have hiff : ∀ s2 : Station, ∀ c2 : CallRequest,
      schedule s2 c2 false = none ↔
        ∀ st ∈ s2.workerStatus, s2.localQueueSize ≤ st.running := by
    intro s2 c2
    unfold schedule
    cases harr : arrayMin (eligibleWorkers s2 false) (fun q => q.2.estimate) with
    | none =>
      exact iff_of_true rfl
        ((eligibleWorkers_false_eq_nil s2).mp ((arrayMin_eq_none _ _).mp harr))
    | some ci =>
      refine iff_of_false (by simp) ?_
      intro hP
      have hnil : eligibleWorkers s2 false = [] :=
        (eligibleWorkers_false_eq_nil s2).mpr hP
      rw [hnil] at harr
      exact absurd harr (by simp [arrayMin])
  refine ⟨hiff s c, ?_⟩
  intro hr hfull
  unfold Station.call
  rw [if_pos hr]
  dsimp only
  have hnone : schedule
      { s with jobId := s.jobId + 1, pendingIds := s.pendingIds ++ [s.jobId] }
      { id := s.jobId, name := nm, data := d, workgroupLength := w } false = none :=
    (hiff _ _).mpr hfull
  rw [hnone]

/-- C5 (witness): the amended claim evaluated on `stationD`, whose only
worker is above capacity. -/
theorem nonpriority_reject_iff_full_witness :
    schedule stationD jobA false = none ∧
    (Station.call stationD "a" 0 0 false).globalQueue =
      stationD.globalQueue ++
        [{ id := stationD.jobId, name := "a", data := 0, workgroupLength := 0 }] := by
  have h := nonpriority_reject_iff_full stationD jobA "a" 0 0
  have hfull : ∀ st ∈ stationD.workerStatus, stationD.localQueueSize ≤ st.running := by
    decide!
  exact ⟨h.1.mpr hfull, h.2 (by decide!) hfull⟩

/-- C7 (counterexample): on `stationE` two jobs of type `"a"` are admitted
at the fallback estimate 10 each (backlog 20); between their completions the
estimate table changes to mean 4, so the second completion subtracts 4, not
the 10 added at admission — with no job admitted any more, the backlog is
left at 6 instead of 0, so the backlog does not equal the sum of
admission-time estimates of the admitted jobs. -/
theorem backlog_decrement_completion_time_cex :
    stationE.workerStatus = [{ estimate := 6, running := 0 }] ∧
    stationE.pendingIds = [] ∧ ((6 : ℚ) ≠ 0) := by
  exact ⟨by decide!, by decide!, by norm_num⟩

/-- C7 (amended): the amount subtracted from the backlog of a worker when a
completion is processed is the estimate of the job-type *as evaluated at
completion time* (the current table value, or the fallback) — not the
admission-time value; the two coincide only while the estimate of the type is
unchanged in flight. -/
theorem onDone_subtracts_current_estimate (s : Station) (i id : ℕ) (name : String)
    (r : ℕ) (dt : ℚ) (st : WorkerStatus) (h : s.workerStatus[i]? = some st) :
    ((onDone s i id name r dt).workerStatus)[i]? =
      some ⟨st.estimate - s.getEstimate name, st.running - 1⟩ := by
  have hlen : i < s.workerStatus.length := by
    rcases List.getElem?_eq_some.mp h with ⟨hl, -⟩
    exact hl
  have hws : (resolveDone s id r).workerStatus[i]? = some st := by
    rw [(resolveDone_frame s id r).1]; exact h
  unfold onDone
  rw [statusDone_spec (resolveDone s id r) i name dt st hws]
  show ((resolveDone s id r).workerStatus.set i
      ⟨st.estimate - (resolveDone s id r).getEstimate name, st.running - 1⟩)[i]? = _
  rw [(resolveDone_frame s id r).1, resolveDone_getEstimate]
  exact List.getElem?_set_self hlen

/-- C7 (witness): the amended claim evaluated on `stationB` for a type with
no table entry, so the completion-time estimate is the fallback. -/
theorem onDone_subtracts_current_estimate_witness :
    ((onDone stationB 0 5 "b" 7 3).workerStatus)[0]? =
      some ⟨10 - stationB.getEstimate "b", 0⟩ :=
  onDone_subtracts_current_estimate stationB 0 5 "b" 7 3 ⟨10, 1⟩ rfl

/-- C9 (counterexample): with hardwareConcurrency 1 the resolved pool size
`min(1 - 1, 4)` is zero, yet construction succeeds with an empty worker pool
instead of rejecting — the constructor has no zero-pool guard. -/
theorem mkStation_zero_pool_accepted :
    mkStation 1 8 4 [] 10 = Except.ok (initStation 0 8 10 []) ∧
    (initStation 0 8 10 []).workerStatus = [] := by
  exact ⟨rfl, rfl⟩

/-- C9 (amended): the constructor never rejects a non-negative resolved pool
size — including zero, where it silently builds a station with an empty pool
whose readiness gate can then never open; only a negative resolved count
throws, via array allocation, not an explicit guard. -/
theorem mkStation_no_zero_guard (cpu cap mw : ℤ) (snap : List (String × ℚ)) (fb : ℚ)
    (h : 0 ≤ min (cpu - 1) mw) :
    mkStation cpu cap mw snap fb =
      Except.ok (initStation (min (cpu - 1) mw).toNat cap fb snap) := by
  unfold mkStation
  dsimp only
  rw [if_neg (by omega)]

/-- C9 (witness): a pool resolving to two workers is constructed without
rejection. -/
theorem mkStation_no_zero_guard_witness :
    mkStation 5 8 2 [] 10 = Except.ok (initStation 2 8 10 []) := by
  have h := mkStation_no_zero_guard 5 8 2 [] 10 (by decide)
  exact h

/-- The reflow loop admits a schedulable prefix: its count is bounded by
the queue length, the prefix of that length is admitted in order, and any
job left at the head fails admission in the reached state. -/
theorem reflowGo_spec (q : List CallRequest) (s : Station) :
    (reflowGo s q).2 ≤ q.length ∧
    scheduleSeq s (q.take (reflowGo s q).2) = some (reflowGo s q).1 ∧
    ∀ c, (q.drop (reflowGo s q).2).head? = some c →
      schedule (reflowGo s q).1 c false = none := by
  induction q generalizing s with
  | nil =>
    refine ⟨Nat.le_refl 0, rfl, ?_⟩
    intro c hc
    simp at hc
  | cons job rest ih =>
    cases hs : schedule s job false with
    | none =>
      have hr : reflowGo s (job :: rest) = (s, 0) := by
        simp only [reflowGo, hs]
      rw [hr]
      refine ⟨Nat.zero_le _, rfl, ?_⟩
      intro c hc
      simp only [List.drop_zero, List.head?_cons, Option.some.injEq] at hc
      rw [← hc]
      exact hs
    | some s1 =>
      have hr : reflowGo s (job :: rest) =
          ((reflowGo s1 rest).1, (reflowGo s1 rest).2 + 1) := by
        simp only [reflowGo, hs]
      rw [hr]
      obtain ⟨ih1, ih2, ih3⟩ := ih s1
      refine ⟨?_, ?_, ?_⟩
      · show (reflowGo s1 rest).2 + 1 ≤ rest.length + 1
        omega
      · show scheduleSeq s (job :: rest.take (reflowGo s1 rest).2) =
          some (reflowGo s1 rest).1
        unfold scheduleSeq
        rw [hs]
        exact ih2
      · intro c hc
        rw [List.drop_succ_cons] at hc
        exact ih3 c hc

/-- The reflow loop never touches the global queue itself. -/
theorem reflowGo_globalQueue (q : List CallRequest) (s : Station) :
    (reflowGo s q).1.globalQueue = s.globalQueue := by
  induction q generalizing s with
  | nil => rfl
  | cons job rest ih =>
    cases hs : schedule s job false with
    | none =>
      have hr : reflowGo s (job :: rest) = (s, 0) := by
        simp only [reflowGo, hs]
      rw [hr]
    | some s1 =>
      have hr : reflowGo s (job :: rest) =
          ((reflowGo s1 rest).1, (reflowGo s1 rest).2 + 1) := by
        simp only [reflowGo, hs]
      rw [hr]
      show (reflowGo s1 rest).1.globalQueue = s.globalQueue
      rw [ih s1]
      exact (schedule_frame hs).1

/-- The reflow loop never touches the readiness gate. -/
theorem reflowGo_isReady (q : List CallRequest) (s : Station) :
    (reflowGo s q).1.isReady = s.isReady := by
  induction q generalizing s with
  | nil => rfl
  | cons job rest ih =>
    cases hs : schedule s job false with
    | none =>
      have hr : reflowGo s (job :: rest) = (s, 0) := by
        simp only [reflowGo, hs]
      rw [hr]
    | some s1 =>
      have hr : reflowGo s (job :: rest) =
          ((reflowGo s1 rest).1, (reflowGo s1 rest).2 + 1) := by
        simp only [reflowGo, hs]
      rw [hr]
      show (reflowGo s1 rest).1.isReady = s.isReady
      rw [ih s1]
      exact (schedule_frame hs).2.1

/-- C4: every reflow pass works strictly from the head of the Global Queue
with non-priority admission: there is an `n` such that the first `n` queued
jobs are admitted in order, the queue afterwards is exactly the original
queue with those `n` removed from the front — so the remaining jobs keep
their arrival order — and any job still at the head is one whose admission
fails in the state the pass reached. -/
theorem reflow_from_head (s : Station) :
    ∃ n s1, n ≤ s.globalQueue.length ∧
      scheduleSeq s (s.globalQueue.take n) = some s1 ∧
      reflow s = { s1 with globalQueue := s.globalQueue.drop n } ∧
      ∀ c, (s.globalQueue.drop n).head? = some c → schedule s1 c false = none := by
  by_cases hq : s.globalQueue.isEmpty
  · refine ⟨0, s, Nat.zero_le _, rfl, ?_, ?_⟩
    · unfold reflow
      rw [if_pos hq]
      rfl
    · intro c hc
      rw [List.isEmpty_iff.mp hq] at hc
      simp at hc
  · obtain ⟨h1, h2, h3⟩ := reflowGo_spec s.globalQueue s
    refine ⟨(reflowGo s s.globalQueue).2, (reflowGo s s.globalQueue).1, h1, h2, ?_, h3⟩
    unfold reflow
    rw [if_neg hq]
    dsimp only
    rw [reflowGo_globalQueue s.globalQueue s]

/-- C4 (witness): the reflow decomposition applied to `stationD`, whose
global queue holds one job that cannot be admitted. -/
theorem reflow_from_head_witness :
    ∃ n s1, n ≤ stationD.globalQueue.length ∧
      scheduleSeq stationD (stationD.globalQueue.take n) = some s1 ∧
      reflow stationD = { s1 with globalQueue := stationD.globalQueue.drop n } ∧
      ∀ c, (stationD.globalQueue.drop n).head? = some c →
        schedule s1 c false = none :=
  reflow_from_head stationD

/-- The `"done"` handler never touches the readiness gate. -/
theorem onDone_isReady (s : Station) (i id : ℕ) (nm : String) (r : ℕ) (dt : ℚ) :
    (onDone s i id nm r dt).isReady = s.isReady := by
  unfold onDone statusDone
  split <;> exact (resolveDone_frame s id r).2.2.2.1

/-- `call` never touches the readiness gate. -/
theorem call_isReady (s : Station) (nm : String) (d w : ℕ) (p : Bool) :
    (Station.call s nm d w p).isReady = s.isReady := by
  unfold Station.call
  split
  · dsimp only
    cases hs : schedule
        { s with jobId := s.jobId + 1, pendingIds := s.pendingIds ++ [s.jobId] }
        { id := s.jobId, name := nm, data := d, workgroupLength := w } p with
    | none => rfl
    | some s2 => exact (schedule_frame hs).2.1
  · rfl

/-- A reflow pass never touches the readiness gate. -/
theorem reflow_isReady (s : Station) : (reflow s).isReady = s.isReady := by
  unfold reflow
  split
  · rfl
  · dsimp only
    exact reflowGo_isReady s.globalQueue s

/-- Processing `k` setup acknowledgments adds `k` to the ready count, leaves
the pool untouched, and opens the gate exactly if the pool size falls in the
interval the counter sweeps. -/
theorem runSetups (k : ℕ) (s : Station) :
    (runEvents s (List.replicate k (Event.setup 0))).readyCount = s.readyCount + k ∧
    (runEvents s (List.replicate k (Event.setup 0))).workerStatus = s.workerStatus ∧
    (runEvents s (List.replicate k (Event.setup 0))).isReady =
      (s.isReady || decide (s.readyCount < s.workerStatus.length ∧
        s.workerStatus.length ≤ s.readyCount + k)) := by
  induction k generalizing s with
  | zero =>
    refine ⟨rfl, rfl, ?_⟩
    have h : ¬(s.readyCount < s.workerStatus.length ∧
        s.workerStatus.length ≤ s.readyCount + 0) := by omega
    rw [decide_eq_false h, Bool.or_false]
    rfl
  | succ k ih =>
    obtain ⟨ih1, ih2, ih3⟩ := ih (onSetup s 0)
    have hstep : runEvents s (List.replicate (k + 1) (Event.setup 0)) =
        runEvents (onSetup s 0) (List.replicate k (Event.setup 0)) := rfl
    rw [hstep]
    refine ⟨?_, ?_, ?_⟩
    · rw [ih1]
      show s.readyCount + 1 + k = s.readyCount + (k + 1)
      omega
    · rw [ih2]
      rfl
    · rw [ih3]
      show ((s.isReady || decide (s.readyCount + 1 = s.workerStatus.length)) ||
          decide (s.readyCount + 1 < s.workerStatus.length ∧
            s.workerStatus.length ≤ s.readyCount + 1 + k)) = _
      rw [Bool.or_assoc]
      congr 1
      rw [← Bool.decide_or]
      exact decide_eq_decide.mpr (by omega)

/-- C8: (i) from a freshly constructed station with pool size `n`, after `k`
setup acknowledgments the readiness gate is open iff `1 ≤ n ∧ n ≤ k`, so it
opens exactly when the `n`-th acknowledgment is processed and not before;
(ii) a `call` issued while the gate is closed leaves the state untouched —
no job id is allocated, nothing is admitted or queued; (iii) once the gate
is open, every event keeps it open. -/
theorem readiness_gate_spec (n k : ℕ) (cap : ℤ) (fb : ℚ) (snap : List (String × ℚ))
    (s1 s2 : Station) (e : Event) (nm : String) (d w : ℕ) (p : Bool) :
    ((runEvents (initStation n cap fb snap) (List.replicate k (Event.setup 0))).isReady
      = decide (1 ≤ n ∧ n ≤ k)) ∧
    (s1.isReady = false → Station.call s1 nm d w p = s1) ∧
    (s2.isReady = true → (step s2 e).isReady = true) := by
  refine ⟨?_, ?_, ?_⟩
  · obtain ⟨-, -, h3⟩ := runSetups k (initStation n cap fb snap)
    rw [h3]
    show (false ||
        decide (0 < (List.replicate n ({ estimate := 0, running := 0 } : WorkerStatus)).length ∧
          (List.replicate n ({ estimate := 0, running := 0 } : WorkerStatus)).length ≤ 0 + k)) = _
    rw [Bool.false_or, List.length_replicate]
    exact decide_eq_decide.mpr (by omega)
  · intro h
    unfold Station.call
    rw [if_neg (show ¬(s1.isReady = true) by rw [h]; exact Bool.false_ne_true)]
  · intro h
    cases e with
    | setup i =>
      have hset : (onSetup s2 i).isReady =
          (s2.isReady || decide (s2.readyCount + 1 = s2.workerStatus.length)) := rfl
      show (onSetup s2 i).isReady = true
      rw [hset, h, Bool.true_or]
    | done i id nm2 r dt =>
      show (onDone s2 i id nm2 r dt).isReady = true
      rw [onDone_isReady]
      exact h
    | callReq nm2 d2 w2 p2 =>
      show (Station.call s2 nm2 d2 w2 p2).isReady = true
      rw [call_isReady]
      exact h
    | reflowRun =>
      show (reflow s2).isReady = true
      rw [reflow_isReady]
      exact h
    | estimatesRun => exact h

/-- C8 (witness): a pool of two opens after exactly two acknowledgments; a
call on the not-yet-ready station is a no-op; the open gate survives an
estimate-recomputation step. -/
theorem readiness_gate_spec_witness :
    ((runEvents (initStation 2 8 10 []) (List.replicate 2 (Event.setup 0))).isReady
      = decide (1 ≤ 2 ∧ 2 ≤ 2)) ∧
    (Station.call stationNR "a" 0 0 false = stationNR) ∧
    ((step stationR Event.estimatesRun).isReady = true) := by
  have h := readiness_gate_spec 2 2 8 10 [] stationNR stationR Event.estimatesRun
    "a" 0 0 false
  exact ⟨h.1, h.2.1 rfl, h.2.2 rfl⟩
